import Mathlib

/-!
Verification of the one-layer fast-follow conversational cache
(`OneLayerFastFollow`, `FollowupProposer._parse`, `_menu_text`,
`ask`, `peek_immediate`, `rotate_next_layer` from `src/main.py`).

Strings are modelled as `List Char`.  The external language model
(`MainAnswerer` / `FollowupProposer.p` / `FollowupAnswerer`) is an opaque
collaborator `Gen` whose calls may fail (`none` models a raised
exception / GenerationFailure).  Python's whitespace and line-break
character classes are modelled over their code points (ASCII plus the
Unicode members Python uses); the regex digit class `\d` is modelled as
the ASCII digits.
-/

namespace FastFollow

/-- Python whitespace (`str.strip`, regex `\s`), by code point. -/
def isPySpace (c : Char) : Bool :=
  c.toNat = 32 || c.toNat = 9 || c.toNat = 10 || c.toNat = 13 ||
  c.toNat = 11 || c.toNat = 12 || (28 ≤ c.toNat && c.toNat ≤ 31) ||
  c.toNat = 0x85 || c.toNat = 0xa0 || c.toNat = 0x1680 ||
  (0x2000 ≤ c.toNat && c.toNat ≤ 0x200a) ||
  c.toNat = 0x2028 || c.toNat = 0x2029 || c.toNat = 0x202f ||
  c.toNat = 0x205f || c.toNat = 0x3000

/-- Line terminators recognised by Python's `str.splitlines`. -/
def isLineBreak (c : Char) : Bool :=
  c.toNat = 10 || c.toNat = 13 || c.toNat = 11 || c.toNat = 12 ||
  (28 ≤ c.toNat && c.toNat ≤ 30) || c.toNat = 0x85 ||
  c.toNat = 0x2028 || c.toNat = 0x2029

/-- ASCII decimal digit (model of the regex class `\d`). -/
def isDigitC (c : Char) : Bool :=
  48 ≤ c.toNat && c.toNat ≤ 57

/-- Right trim: drop trailing Python whitespace. -/
def rtrimL (l : List Char) : List Char :=
  (l.reverse.dropWhile isPySpace).reverse

/-- Python `str.strip()`: drop leading and trailing whitespace. -/
def pyStripL (l : List Char) : List Char :=
  rtrimL (l.dropWhile isPySpace)

/-- `str.splitlines` worker: `cur` is the current line, reversed.
`\r\n` counts as a single terminator; every other terminator stands
alone. -/
def pyLinesGo : List Char → List Char → List (List Char)
  | [], cur => if cur = [] then [] else [cur.reverse]
  | '\r' :: '\n' :: rest, cur => cur.reverse :: pyLinesGo rest []
  | '\r' :: rest, cur => cur.reverse :: pyLinesGo rest []
  | c :: rest, cur =>
    if isLineBreak c then cur.reverse :: pyLinesGo rest []
    else pyLinesGo rest (c :: cur)

/-- Python `text.splitlines()`. -/
def pyLines (text : List Char) : List (List Char) :=
  pyLinesGo text []

/-- `(.*\S)\s*$` on a remainder: the content up to the last
non-whitespace character, or `none` when there is none. -/
def coreOf (l : List Char) : Option (List Char) :=
  let r := rtrimL l
  if r = [] then none else some r

/-- Group 1 of `re.match(r'^\s*(?:\d+\.\s*|[-•]\s*)?(.*\S)\s*$', raw)`.
The optional marker participates only when a non-whitespace character
remains after it; otherwise the regex backtracks and the marker itself
becomes part of the matched text. -/
def reGroup1 (raw : List Char) : Option (List Char) :=
  match raw.dropWhile isPySpace with
  | [] => none
  | c :: rest =>
    if c = '-' ∨ c = '•' then
      match coreOf (rest.dropWhile isPySpace) with
      | some g => some g
      | none => coreOf (c :: rest)
    else
      let ds := (c :: rest).takeWhile isDigitC
      if ds ≠ [] ∧ ((c :: rest).drop ds.length).head? = some '.' then
        match coreOf (((c :: rest).drop (ds.length + 1)).dropWhile isPySpace) with
        | some g => some g
        | none => coreOf (c :: rest)
      else
        coreOf (c :: rest)

/-- One line of `FollowupProposer._parse`: regex match, group 1,
`strip()`, and the empty check.  `none` means the line is skipped. -/
def lineToken (raw : List Char) : Option (List Char) :=
  match reGroup1 raw with
  | none => none
  | some g =>
    let t := pyStripL g
    if t = [] then none else some t

/-- `t.lower().startswith(("follow-ups", "followups", "questions:"))`. -/
def isHeader (t : List Char) : Bool :=
  List.isPrefixOf ("follow-ups".data) (t.map Char.toLower) ||
  List.isPrefixOf ("followups".data) (t.map Char.toLower) ||
  List.isPrefixOf ("questions:".data) (t.map Char.toLower)

/-- A line's contribution to the parse: its token unless it is a
header line (headers are discarded). -/
def candOf (raw : List Char) : Option (List Char) :=
  match lineToken raw with
  | none => none
  | some t => if isHeader t then none else some t

/-- The main loop of `FollowupProposer._parse`: iterate over the split
lines with the `seen` set and accumulated `items`, breaking as soon as
`len(items) >= k`. -/
def parseGo (k : Nat) : List (List Char) → List (List Char) → List (List Char) → List (List Char)
  | [], _, items => items
  | raw :: rest, seen, items =>
    match lineToken raw with
    | none => parseGo k rest seen items
    | some t =>
      if isHeader t then parseGo k rest seen items
      else
        let seen' := if t ∈ seen then seen else t :: seen
        let items' := if t ∈ seen then items else items ++ [t]
        if k ≤ items'.length then items' else parseGo k rest seen' items'

/-- `FollowupProposer._parse(text, k)`. -/
def parseMenu (text : List Char) (k : Nat) : List (List Char) :=
  parseGo k (pyLines text) [] []

/-- All tokens of the non-header lines, in input order (the stream the
parse loop consumes). -/
def candidates (text : List Char) : List (List Char) :=
  (pyLines text).filterMap candOf

/-- The external text-generation collaborator (the three DSPy
predictors).  `none` models a call that fails (GenerationFailure). -/
structure Gen where
  mainAnswer : List Char → Option (List Char)
  proposeFollowups : List Char → Option (List Char)
  followupAnswer : List Char → List Char → Option (List Char)

/-- The mutable state of `OneLayerFastFollow`: the configured menu
size `k`, the current base question, the Menu, and the AnswerCache
(an insertion-ordered map from 1-based index to answer). -/
structure ConvState where
  k : Nat
  base : Option (List Char)
  menu : List (List Char)
  answers : List (Nat × List Char)
deriving DecidableEq

/-- First-match association lookup (Python dict lookup; inserted keys
are always distinct here). -/
def lookupNat : List (Nat × List Char) → Nat → Option (List Char)
  | [], _ => none
  | (key, v) :: rest, i => if key = i then some v else lookupNat rest i

/-- Python `dict.get` with an `int` key on a cache whose keys are the
positive menu indices. -/
def dictGet (d : List (Nat × List Char)) (i : Int) : Option (List Char) :=
  if 0 ≤ i then lookupNat d i.toNat else none

/-- Python list indexing `xs[i]` as a total function: non-negative
indices are direct, negative indices count from the end, and anything
out of range is `none` (an `IndexError`). -/
def pyGet (xs : List (List Char)) (i : Int) : Option (List Char) :=
  if 0 ≤ i then xs[i.toNat]?
  else if -(xs.length : Int) ≤ i then xs[xs.length - (-i).toNat]?
  else none

/-- `FollowupProposer.forward`: call the proposer and parse its raw
output (a missing `followups` field is coalesced to `""` by the
source's `or ""`, folded here into the collaborator's output). -/
def forward (g : Gen) (ctx : List Char) (k : Nat) : Option (List (List Char)) :=
  match g.proposeFollowups ctx with
  | none => none
  | some raw => some (parseMenu raw k)

/-- The context string built by `ask`. -/
def askCtx (question main_answer : List Char) : List Char :=
  "User question: ".data ++ question ++ "\nAnswer: ".data ++ main_answer

/-- The context string built by `rotate_next_layer`. -/
def rotCtx (selected_fu immediate : List Char) : List Char :=
  "Base: ".data ++ selected_fu ++ "\nAnswer: ".data ++ immediate

/-- A single decimal digit character. -/
def digitChar (n : Nat) : Char :=
  if n = 0 then '0' else if n = 1 then '1' else if n = 2 then '2'
  else if n = 3 then '3' else if n = 4 then '4' else if n = 5 then '5'
  else if n = 6 then '6' else if n = 7 then '7' else if n = 8 then '8'
  else '9'

/-- Decimal rendering of a natural number (Python `f"{n}"`), worker.
The first argument is fuel; `natReprL` supplies more fuel than the
number has digits, so the fuel never runs out. -/
def natReprCore : Nat → Nat → List Char → List Char
  | 0, _, acc => acc
  | fuel + 1, n, acc =>
    if n < 10 then digitChar (n % 10) :: acc
    else natReprCore fuel (n / 10) (digitChar (n % 10) :: acc)

/-- Decimal rendering of a natural number (Python `f"{n}"`). -/
def natReprL (n : Nat) : List Char :=
  natReprCore (n + 1) n []

/-- One rendered menu line `f"{i+1}. {q}"`. -/
def renderLine (i : Nat) (q : List Char) : List Char :=
  natReprL (i + 1) ++ '.' :: ' ' :: q

/-- The rendered menu lines, with running index. -/
def menuLines : Nat → List (List Char) → List (List Char)
  | _, [] => []
  | i, q :: rest => renderLine i q :: menuLines (i + 1) rest

/-- Python `"\n".join(lines)`. -/
def joinLines : List (List Char) → List Char
  | [] => []
  | l :: rest =>
    match rest with
    | [] => l
    | _ => l ++ '\n' :: joinLines rest

/-- `OneLayerFastFollow._menu_text()` with the default title. -/
def menu_text (menu : List (List Char)) : List Char :=
  if menu = [] then []
  else "\n\nFollow-ups:\n".data ++ joinLines (menuLines 0 menu)

/-- The per-entry answer loop shared by `ask` and `rotate_next_layer`:
fill the cache in menu order, starting at index `idx`, until a
generator call fails.  Returns the (possibly partial) cache and
whether every call succeeded. -/
def fillAnswers (g : Gen) (base_q : List Char) :
    List (List Char) → Nat → List (Nat × List Char) → List (Nat × List Char) × Bool
  | [], _, acc => (acc, true)
  | fu :: rest, idx, acc =>
    match g.followupAnswer base_q fu with
    | none => (acc, false)
    | some a => fillAnswers g base_q rest (idx + 1) (acc ++ [(idx, a)])

/-- `OneLayerFastFollow.ask`.  The returned state reflects every
mutation performed before a failure escapes: `self.base` is assigned
first, and a failure inside the answer loop leaves the new menu with a
partially filled cache. -/
def ask (g : Gen) (s : ConvState) (question : List Char) :
    ConvState × Option (List Char × List (List Char)) :=
  match g.mainAnswer question with
  | none => ({ s with base := some question }, none)
  | some main_answer =>
    match forward g (askCtx question main_answer) s.k with
    | none => ({ s with base := some question }, none)
    | some menu' =>
      match fillAnswers g question menu' 1 [] with
      | (acc, false) =>
        ({ s with base := some question, menu := menu', answers := acc }, none)
      | (acc, true) =>
        ({ s with base := some question, menu := menu', answers := acc },
         some (main_answer ++ menu_text menu', menu'))

/-- The out-of-range message of `peek_immediate`. -/
def oorMsg (n : Nat) : List Char :=
  "Please choose a number between 1 and ".data ++ natReprL n ++ ".".data

/-- `OneLayerFastFollow.peek_immediate` (a method that performs no
assignment; the state component is returned untouched). -/
def peek_immediate (s : ConvState) (choice_idx : Int) : ConvState × List Char :=
  if ¬(1 ≤ choice_idx ∧ choice_idx ≤ (s.menu.length : Int)) then
    (s, oorMsg s.menu.length)
  else
    (s, (dictGet s.answers choice_idx).getD ("Sorry, no cached answer found.".data))

/-- `OneLayerFastFollow.rotate_next_layer`.  As in `ask`, the returned
state reflects every mutation performed before a failure escapes. -/
def rotate_next_layer (g : Gen) (s : ConvState) (choice_idx : Int) :
    ConvState × Option (List (List Char)) :=
  match pyGet s.menu (choice_idx - 1) with
  | none => (s, none)
  | some selected_fu =>
    match forward g (rotCtx selected_fu ((dictGet s.answers choice_idx).getD [])) s.k with
    | none => ({ s with base := some selected_fu }, none)
    | some next_menu =>
      match fillAnswers g selected_fu next_menu 1 [] with
      | (acc, false) =>
        ({ s with base := some selected_fu, menu := next_menu, answers := acc }, none)
      | (acc, true) =>
        ({ s with base := some selected_fu, menu := next_menu, answers := acc },
         some next_menu)

/-- The marker-stripping step as the spec's §4.1 words describe it:
from a line (leading whitespace already ignored), remove a leading
enumeration marker — digit(s) followed by `.` and (optional)
whitespace, or a bullet `-`/`•` followed by (optional) whitespace —
when one is present. -/
def specMarkerDrop (s : List Char) : List Char :=
  match s with
  | [] => []
  | c :: rest =>
    if c = '-' ∨ c = '•' then rest.dropWhile isPySpace
    else
      let ds := (c :: rest).takeWhile isDigitC
      if ds ≠ [] ∧ ((c :: rest).drop ds.length).head? = some '.' then
        ((c :: rest).drop (ds.length + 1)).dropWhile isPySpace
      else c :: rest

/-- Claim C7's line pipeline, as stated: strip the optional leading
marker, trim, and skip the line when the remainder is empty. -/
def specToken (raw : List Char) : Option (List Char) :=
  let t := pyStripL (specMarkerDrop (raw.dropWhile isPySpace))
  if t = [] then none else some t

/-- The amended line pipeline: identical to `specToken` except that a
line consisting only of a marker (plus whitespace) keeps the marker
itself as its text instead of being skipped, because the regex
backtracks out of the optional marker group. -/
def amendedToken (raw : List Char) : Option (List Char) :=
  match raw.dropWhile isPySpace with
  | [] => none
  | c :: rest =>
    let t := pyStripL (specMarkerDrop (c :: rest))
    if t = [] then some (rtrimL (c :: rest)) else some t

/-- Keep the first occurrence of each element (relative to the
already-`seen` list). -/
def dedupFirstAux : List (List Char) → List (List Char) → List (List Char)
  | [], _ => []
  | x :: xs, seen =>
    if x ∈ seen then dedupFirstAux xs seen
    else x :: dedupFirstAux xs (x :: seen)

/-- Keep the first occurrence of each element of a list. -/
def dedupFirst (l : List (List Char)) : List (List Char) :=
  dedupFirstAux l []

/-- The parse loop restated over the already-filtered candidate
stream (see `parseGo_eq_collect`). -/
def collect (k : Nat) : List (List Char) → List (List Char) → List (List Char) → List (List Char)
  | [], _, items => items
  | t :: rest, seen, items =>
    let seen' := if t ∈ seen then seen else t :: seen
    let items' := if t ∈ seen then items else items ++ [t]
    if k ≤ items'.length then items' else collect k rest seen' items'

/-- A generator that always succeeds, used for concrete runs. -/
def genOk : Gen where
  mainAnswer := fun _ => some ("main answer".data)
  proposeFollowups := fun _ => some ("1. Q1\n2. Q2".data)
  followupAnswer := fun _ fu => some ("ans:".data ++ fu)

/-- A generator whose follow-up-answer call fails on the second new
menu entry, used to exercise a failure mid-loop. -/
def genMidFail : Gen where
  mainAnswer := fun _ => some ("main answer".data)
  proposeFollowups := fun _ => some ("1. n1\n2. n2".data)
  followupAnswer := fun _ fu => if fu = "n2".data then none else some ("x".data)

/-- A generator whose proposal output is empty raw text. -/
def genEmptyMenu : Gen where
  mainAnswer := fun _ => some ("main answer".data)
  proposeFollowups := fun _ => some []
  followupAnswer := fun _ fu => some ("ans:".data ++ fu)

/-- A concrete state whose layer holds a three-entry menu with its
fully populated cache. -/
def sThree : ConvState where
  k := 4
  base := some ("base".data)
  menu := ["m1".data, "m2".data, "m3".data]
  answers := [(1, "x1".data), (2, "x2".data), (3, "x3".data)]

/-- A concrete state whose layer holds a two-entry menu with its
fully populated cache. -/
def sTwo : ConvState where
  k := 4
  base := some ("b".data)
  menu := ["q1".data, "q2".data]
  answers := [(1, "a1".data), (2, "a2".data)]

/-- A concrete state whose layer holds a one-entry menu with its
fully populated cache. -/
def sOne : ConvState where
  k := 4
  base := some ("b".data)
  menu := ["a".data]
  answers := [(1, "x".data)]

/-- The freshly constructed conversation state. -/
def sEmpty : ConvState where
  k := 4
  base := none
  menu := []
  answers := []

/-- The state `ask genOk sEmpty "hi"` produces. -/
def sAsk1 : ConvState where
  k := 4
  base := some ("hi".data)
  menu := ["Q1".data, "Q2".data]
  answers := [(1, "ans:Q1".data), (2, "ans:Q2".data)]

/-- The visible result `ask genOk sEmpty "hi"` produces. -/
def rAsk1 : List Char × List (List Char) :=
  ("main answer\n\nFollow-ups:\n1. Q1\n2. Q2".data, ["Q1".data, "Q2".data])

/-- Reachability by any sequence of successful `rotate_next_layer`
calls (any generator behaviour, any index, each call succeeding). -/
inductive RotReach : ConvState → ConvState → Prop
  | refl (s : ConvState) : RotReach s s
  | step (s t u : ConvState) (g : Gen) (idx : Int) (m : List (List Char)) :
      RotReach s t → rotate_next_layer g t idx = (u, some m) → RotReach s u

/-- The shape every token the parser emits has: non-empty, trimmed on
both sides, free of line terminators, and not a header. -/
def GoodTok (t : List Char) : Prop :=
  t ≠ [] ∧ t.dropWhile isPySpace = t ∧ rtrimL t = t ∧
  (∀ c ∈ t, isLineBreak c = false) ∧ isHeader t = false

/-! ### Basic facts about trimming -/

lemma dropWhile_head_false {p : Char → Bool} :
    ∀ {l r : List Char} {c : Char}, l.dropWhile p = c :: r → p c = false := by
  intro l
  induction l with
  | nil => intro r c h; simp at h
  | cons a as ih =>
    intro r c h
    by_cases hp : p a
    · rw [List.dropWhile_cons, if_pos hp] at h
      exact ih h
    · rw [List.dropWhile_cons, if_neg hp] at h
      cases h
      simpa using hp

lemma mem_dropWhile {p : Char → Bool} {l : List Char} {a : Char}
    (h : a ∈ l.dropWhile p) : a ∈ l :=
  List.Sublist.mem h (List.dropWhile_sublist p)

lemma dropWhile_idem (p : Char → Bool) (l : List Char) :
    (l.dropWhile p).dropWhile p = l.dropWhile p := by
  cases h : l.dropWhile p with
  | nil => simp
  | cons c r =>
    have hc := dropWhile_head_false h
    simp [List.dropWhile_cons, hc]

lemma mem_rtrim {l : List Char} {a : Char} (h : a ∈ rtrimL l) : a ∈ l := by
  unfold rtrimL at h
  rw [List.mem_reverse] at h
  have := mem_dropWhile h
  simpa [List.mem_reverse] using this

lemma rtrim_cons {c : Char} (hc : isPySpace c = false) (l : List Char) :
    rtrimL (c :: l) = c :: rtrimL l := by
  unfold rtrimL
  rw [List.reverse_cons, List.dropWhile_append]
  by_cases h : (l.reverse.dropWhile isPySpace).isEmpty
  · rw [if_pos h]
    have h0 : l.reverse.dropWhile isPySpace = [] := by simpa using h
    simp [List.dropWhile_cons, hc, h0]
  · rw [if_neg h]
    simp

lemma rtrim_idem (l : List Char) : rtrimL (rtrimL l) = rtrimL l := by
  unfold rtrimL
  rw [List.reverse_reverse, dropWhile_idem]

lemma rtrim_cons_ne {c : Char} (hc : isPySpace c = false) (l : List Char) :
    rtrimL (c :: l) ≠ [] := by
  rw [rtrim_cons hc]
  simp

lemma ltrim_rtrim_ltrim (l : List Char) :
    (rtrimL (l.dropWhile isPySpace)).dropWhile isPySpace = rtrimL (l.dropWhile isPySpace) := by
  cases h : l.dropWhile isPySpace with
  | nil => simp [rtrimL]
  | cons c r =>
    have hc := dropWhile_head_false h
    rw [rtrim_cons hc, List.dropWhile_cons, if_neg (by simp [hc])]

lemma pyStrip_eq (l : List Char) : pyStripL l = rtrimL (l.dropWhile isPySpace) := rfl

lemma pyStrip_ltrim_fix (l : List Char) :
    (pyStripL l).dropWhile isPySpace = pyStripL l := ltrim_rtrim_ltrim l

lemma pyStrip_rtrim_fix (l : List Char) : rtrimL (pyStripL l) = pyStripL l := rtrim_idem _

lemma pyStrip_of_fixed {l : List Char} (h1 : l.dropWhile isPySpace = l)
    (h2 : rtrimL l = l) : pyStripL l = l := by
  unfold pyStripL
  rw [h1, h2]

lemma mem_pyStrip {l : List Char} {a : Char} (h : a ∈ pyStripL l) : a ∈ l :=
  mem_dropWhile (mem_rtrim h)

lemma coreOf_eq (l : List Char) :
    coreOf l = if rtrimL l = [] then none else some (rtrimL l) := rfl

lemma pyStrip_of_ltrim (l : List Char) :
    pyStripL (l.dropWhile isPySpace) = rtrimL (l.dropWhile isPySpace) := by
  unfold pyStripL
  rw [dropWhile_idem]

lemma pyStrip_of_rtrim_ltrim (l : List Char) :
    pyStripL (rtrimL (l.dropWhile isPySpace)) = rtrimL (l.dropWhile isPySpace) :=
  pyStrip_of_fixed (ltrim_rtrim_ltrim l) (rtrim_idem _)

/-! ### The regex-based line processing equals the amended pipeline -/

lemma reGroup1_eq_nil {raw : List Char} (h : raw.dropWhile isPySpace = []) :
    reGroup1 raw = none := by
  unfold reGroup1
  rw [h]

lemma reGroup1_eq_cons {raw : List Char} {c : Char} {rest : List Char}
    (h : raw.dropWhile isPySpace = c :: rest) :
    reGroup1 raw =
      if c = '-' ∨ c = '•' then
        (match coreOf (rest.dropWhile isPySpace) with
         | some g => some g
         | none => coreOf (c :: rest))
      else if (c :: rest).takeWhile isDigitC ≠ [] ∧
          ((c :: rest).drop ((c :: rest).takeWhile isDigitC).length).head? = some '.' then
        (match coreOf (((c :: rest).drop (((c :: rest).takeWhile isDigitC).length + 1)).dropWhile isPySpace) with
         | some g => some g
         | none => coreOf (c :: rest))
      else coreOf (c :: rest) := by
  unfold reGroup1
  rw [h]

lemma lineToken_of_some {raw g : List Char} (h : reGroup1 raw = some g) :
    lineToken raw = if pyStripL g = [] then none else some (pyStripL g) := by
  unfold lineToken
  rw [h]

lemma lineToken_of_none {raw : List Char} (h : reGroup1 raw = none) :
    lineToken raw = none := by
  unfold lineToken
  rw [h]

lemma lineToken_eq_amended (raw : List Char) : lineToken raw = amendedToken raw := by
  cases h : raw.dropWhile isPySpace with
  | nil =>
    rw [lineToken_of_none (reGroup1_eq_nil h)]
    unfold amendedToken
    rw [h]
  | cons c rest =>
    have hc : isPySpace c = false := dropWhile_head_false h
    have hne : rtrimL (c :: rest) ≠ [] := rtrim_cons_ne hc rest
    have hfix : pyStripL (rtrimL (c :: rest)) = rtrimL (c :: rest) := by
      have := pyStrip_of_rtrim_ltrim raw
      rwa [h] at this
    have hamend : amendedToken raw =
        (if pyStripL (specMarkerDrop (c :: rest)) = []
         then some (rtrimL (c :: rest))
         else some (pyStripL (specMarkerDrop (c :: rest)))) := by
      unfold amendedToken
      rw [h]
    have hsp0 : specMarkerDrop (c :: rest) =
        if c = '-' ∨ c = '•' then rest.dropWhile isPySpace
        else if (c :: rest).takeWhile isDigitC ≠ [] ∧
            ((c :: rest).drop ((c :: rest).takeWhile isDigitC).length).head? = some '.' then
          ((c :: rest).drop (((c :: rest).takeWhile isDigitC).length + 1)).dropWhile isPySpace
        else c :: rest := rfl
    rw [hamend]
    by_cases hb : c = '-' ∨ c = '•'
    · have hsp : specMarkerDrop (c :: rest) = rest.dropWhile isPySpace := by
        rw [hsp0, if_pos hb]
      have hps := pyStrip_of_ltrim rest
      by_cases h2 : rtrimL (rest.dropWhile isPySpace) = []
      · have hr : reGroup1 raw = some (rtrimL (c :: rest)) := by
          rw [reGroup1_eq_cons h, if_pos hb, coreOf_eq, if_pos h2, coreOf_eq, if_neg hne]
        rw [lineToken_of_some hr, hfix, if_neg hne, hsp, hps, if_pos h2]
      · have hr : reGroup1 raw = some (rtrimL (rest.dropWhile isPySpace)) := by
          rw [reGroup1_eq_cons h, if_pos hb, coreOf_eq, if_neg h2]
        have hfix2 : pyStripL (rtrimL (rest.dropWhile isPySpace)) =
            rtrimL (rest.dropWhile isPySpace) := pyStrip_of_rtrim_ltrim rest
        rw [lineToken_of_some hr, hfix2, if_neg h2, hsp, hps, if_neg h2]
    · have hsp : specMarkerDrop (c :: rest) =
          (if (c :: rest).takeWhile isDigitC ≠ [] ∧
              ((c :: rest).drop ((c :: rest).takeWhile isDigitC).length).head? = some '.' then
            ((c :: rest).drop (((c :: rest).takeWhile isDigitC).length + 1)).dropWhile isPySpace
          else c :: rest) := by
        rw [hsp0, if_neg hb]
      by_cases hd : (c :: rest).takeWhile isDigitC ≠ [] ∧
          ((c :: rest).drop ((c :: rest).takeWhile isDigitC).length).head? = some '.'
      · have hps := pyStrip_of_ltrim ((c :: rest).drop (((c :: rest).takeWhile isDigitC).length + 1))
        by_cases h2 : rtrimL (((c :: rest).drop (((c :: rest).takeWhile isDigitC).length + 1)).dropWhile isPySpace) = []
        · have hr : reGroup1 raw = some (rtrimL (c :: rest)) := by
            rw [reGroup1_eq_cons h, if_neg hb, if_pos hd, coreOf_eq, if_pos h2, coreOf_eq, if_neg hne]
          rw [lineToken_of_some hr, hfix, if_neg hne, hsp, if_pos hd, hps, if_pos h2]
        · have hr : reGroup1 raw =
              some (rtrimL (((c :: rest).drop (((c :: rest).takeWhile isDigitC).length + 1)).dropWhile isPySpace)) := by
            rw [reGroup1_eq_cons h, if_neg hb, if_pos hd, coreOf_eq, if_neg h2]
          have hfix2 := pyStrip_of_rtrim_ltrim ((c :: rest).drop (((c :: rest).takeWhile isDigitC).length + 1))
          rw [lineToken_of_some hr, hfix2, if_neg h2, hsp, if_pos hd, hps, if_neg h2]
      · have hr : reGroup1 raw = some (rtrimL (c :: rest)) := by
          rw [reGroup1_eq_cons h, if_neg hb, if_neg hd, coreOf_eq, if_neg hne]
        have hps : pyStripL (c :: rest) = rtrimL (c :: rest) := by
          have := pyStrip_of_ltrim raw
          rwa [h] at this
        rw [lineToken_of_some hr, hfix, if_neg hne, hsp, if_neg hd, hps, if_neg hne]

/-! ### The parse loop over the candidate stream -/

lemma candOf_of_none {raw : List Char} (ht : lineToken raw = none) :
    candOf raw = none := by
  unfold candOf
  rw [ht]

lemma candOf_of_header {raw t : List Char} (ht : lineToken raw = some t)
    (hh : isHeader t = true) : candOf raw = none := by
  simp only [candOf, ht]
  rw [if_pos hh]

lemma candOf_of_cand {raw t : List Char} (ht : lineToken raw = some t)
    (hh : isHeader t = false) : candOf raw = some t := by
  simp only [candOf, ht]
  rw [if_neg (by simp [hh])]

lemma parseGo_eq_collect (k : Nat) :
    ∀ (lines seen items : List (List Char)),
      parseGo k lines seen items = collect k (lines.filterMap candOf) seen items := by
  intro lines
  induction lines with
  | nil => intro seen items; rfl
  | cons raw rest ih =>
    intro seen items
    rw [List.filterMap_cons]
    cases ht : lineToken raw with
    | none =>
      rw [candOf_of_none ht]
      simp only [parseGo, ht]
      exact ih seen items
    | some t =>
      by_cases hh : isHeader t
      · rw [candOf_of_header ht hh]
        simp only [parseGo, ht]
        rw [if_pos hh]
        exact ih seen items
      · rw [candOf_of_cand ht (by simpa using hh)]
        simp only [parseGo, ht]
        rw [if_neg hh]
        simp only [collect]
        by_cases hk : k ≤ (if t ∈ seen then items else items ++ [t]).length
        · rw [if_pos hk, if_pos hk]
        · rw [if_neg hk, if_neg hk]
          exact ih _ _

lemma mem_dedupFirstAux : ∀ (l seen : List (List Char)) {x : List Char},
    x ∈ dedupFirstAux l seen → x ∈ l := by
  intro l
  induction l with
  | nil => intro seen x h; simp [dedupFirstAux] at h
  | cons a as ih =>
    intro seen x h
    unfold dedupFirstAux at h
    by_cases ha : a ∈ seen
    · rw [if_pos ha] at h
      exact List.mem_cons_of_mem a (ih seen h)
    · rw [if_neg ha] at h
      rcases List.mem_cons.mp h with h1 | h1
      · exact h1 ▸ List.mem_cons_self a as
      · exact List.mem_cons_of_mem a (ih (a :: seen) h1)

lemma dedupFirstAux_nodup : ∀ (l seen : List (List Char)),
    (dedupFirstAux l seen).Nodup ∧ ∀ x ∈ dedupFirstAux l seen, x ∉ seen := by
  intro l
  induction l with
  | nil => intro seen; simp [dedupFirstAux]
  | cons a as ih =>
    intro seen
    unfold dedupFirstAux
    by_cases ha : a ∈ seen
    · rw [if_pos ha]
      exact ih seen
    · rw [if_neg ha]
      obtain ⟨hnd, hout⟩ := ih (a :: seen)
      refine ⟨List.nodup_cons.mpr ⟨fun hmem => ?_, hnd⟩, ?_⟩
      · exact hout a hmem (List.mem_cons_self a seen)
      · intro x hx
        rcases List.mem_cons.mp hx with h1 | h1
        · exact h1 ▸ ha
        · intro hxs
          exact hout x h1 (List.mem_cons_of_mem a hxs)

lemma collect_eq_take (k : Nat) :
    ∀ (cands seen items : List (List Char)), items.length < k →
      collect k cands seen items = items ++ (dedupFirstAux cands seen).take (k - items.length) := by
  intro cands
  induction cands with
  | nil => intro seen items _; simp [collect, dedupFirstAux]
  | cons t rest ih =>
    intro seen items hlt
    unfold collect dedupFirstAux
    by_cases hs : t ∈ seen
    · rw [if_pos hs, if_pos hs, if_pos hs,
        if_neg (by omega : ¬ k ≤ items.length)]
      exact ih seen items hlt
    · rw [if_neg hs, if_neg hs, if_neg hs]
      have hlen : (items ++ [t]).length = items.length + 1 := by simp
      by_cases hk : k ≤ (items ++ [t]).length
      · rw [if_pos hk]
        have hk1 : k - items.length = 1 := by omega
        rw [hk1]
        simp
      · rw [if_neg hk]
        rw [ih (t :: seen) (items ++ [t]) (by omega)]
        have hk2 : k - items.length = (k - (items ++ [t]).length) + 1 := by
          simp at hlen ⊢
          omega
        rw [hk2, List.take_succ_cons]
        simp

lemma collect_mem (k : Nat) :
    ∀ (cands seen items : List (List Char)) {x : List Char},
      x ∈ collect k cands seen items → x ∈ items ∨ x ∈ cands := by
  intro cands
  induction cands with
  | nil => intro seen items x h; exact Or.inl h
  | cons t rest ih =>
    intro seen items x h
    unfold collect at h
    by_cases hk : k ≤ (if t ∈ seen then items else items ++ [t]).length
    · rw [if_pos hk] at h
      by_cases hs : t ∈ seen
      · rw [if_pos hs] at h
        exact Or.inl h
      · rw [if_neg hs] at h
        rcases List.mem_append.mp h with h1 | h1
        · exact Or.inl h1
        · simp at h1
          exact Or.inr (h1 ▸ List.mem_cons_self t rest)
    · rw [if_neg hk] at h
      rcases ih _ _ h with h1 | h1
      · by_cases hs : t ∈ seen
        · rw [if_pos hs] at h1
          exact Or.inl h1
        · rw [if_neg hs] at h1
          rcases List.mem_append.mp h1 with h2 | h2
          · exact Or.inl h2
          · simp at h2
            exact Or.inr (h2 ▸ List.mem_cons_self t rest)
      · exact Or.inr (List.mem_cons_of_mem t h1)

lemma collect_nodup (k : Nat) :
    ∀ (cands seen items : List (List Char)), items.Nodup →
      (∀ x ∈ items, x ∈ seen) → (collect k cands seen items).Nodup := by
  intro cands
  induction cands with
  | nil => intro seen items hnd _; exact hnd
  | cons t rest ih =>
    intro seen items hnd hsub
    unfold collect
    by_cases hs : t ∈ seen
    · rw [if_pos hs, if_pos hs]
      by_cases hk : k ≤ items.length
      · rw [if_pos hk]
        exact hnd
      · rw [if_neg hk]
        exact ih seen items hnd hsub
    · rw [if_neg hs, if_neg hs]
      have hnd' : (items ++ [t]).Nodup := by
        rw [List.nodup_append]
        exact ⟨hnd, List.nodup_singleton t,
          by simp; intro hmem; exact hs (hsub t hmem)⟩
      by_cases hk : k ≤ (items ++ [t]).length
      · rw [if_pos hk]
        exact hnd'
      · rw [if_neg hk]
        refine ih (t :: seen) (items ++ [t]) hnd' ?_
        intro x hx
        rcases List.mem_append.mp hx with h1 | h1
        · exact List.mem_cons_of_mem t (hsub x h1)
        · simp at h1
          exact h1 ▸ List.mem_cons_self t seen

lemma collect_run (k : Nat) :
    ∀ (cands seen items : List (List Char)),
      items.length + cands.length ≤ k → cands.Nodup →
      (∀ x ∈ cands, x ∉ seen) →
      collect k cands seen items = items ++ cands := by
  intro cands
  induction cands with
  | nil => intro seen items _ _ _; simp [collect]
  | cons t rest ih =>
    intro seen items hle hnd hout
    unfold collect
    have hs : t ∉ seen := hout t (List.mem_cons_self t rest)
    rw [if_neg hs, if_neg hs]
    have hlen : (items ++ [t]).length = items.length + 1 := by simp
    by_cases hk : k ≤ (items ++ [t]).length
    · rw [if_pos hk]
      have hrest : rest = [] := by
        cases rest with
        | nil => rfl
        | cons r rs =>
          exfalso
          have h2 : k ≤ items.length + 1 := by simpa using hk
          simp at hle
          omega
      subst hrest
      simp
    · rw [if_neg hk]
      rw [ih (t :: seen) (items ++ [t]) (by simp at hle hlen ⊢; omega)
        (List.Nodup.of_cons hnd) ?_]
      · simp
      · intro x hx
        rw [List.mem_cons]
        push_neg
        constructor
        · intro he
          subst he
          exact (List.nodup_cons.mp hnd).1 hx
        · exact hout x (List.mem_cons_of_mem t hx)

/-! ### The answer-filling loop and cache lookups -/

lemma fill_acc (g : Gen) (b : List Char) :
    ∀ (menu : List (List Char)) (idx : Nat) (acc : List (Nat × List Char)),
      fillAnswers g b menu idx acc =
        (acc ++ (fillAnswers g b menu idx []).1, (fillAnswers g b menu idx []).2) := by
  intro menu
  induction menu with
  | nil => intro idx acc; simp [fillAnswers]
  | cons fu rest ih =>
    intro idx acc
    cases hg : g.followupAnswer b fu with
    | none => simp [fillAnswers, hg]
    | some a =>
      simp only [fillAnswers, hg, List.nil_append]
      rw [ih (idx + 1) (acc ++ [(idx, a)]), ih (idx + 1) [(idx, a)]]
      simp

lemma fill_keys_true (g : Gen) (b : List Char) :
    ∀ (menu : List (List Char)) (idx : Nat),
      (fillAnswers g b menu idx []).2 = true →
      (fillAnswers g b menu idx []).1.map Prod.fst = List.range' idx menu.length := by
  intro menu
  induction menu with
  | nil => intro idx _; simp [fillAnswers]
  | cons fu rest ih =>
    intro idx h2
    cases hg : g.followupAnswer b fu with
    | none => simp [fillAnswers, hg] at h2
    | some a =>
      simp only [fillAnswers, hg, List.nil_append] at h2 ⊢
      rw [fill_acc g b rest (idx + 1) [(idx, a)]] at h2 ⊢
      simp only [List.length_cons, List.range'_succ]
      have hkeys := ih (idx + 1) (by simpa using h2)
      simp [hkeys]

lemma fill_keys_false (g : Gen) (b : List Char) :
    ∀ (menu : List (List Char)) (idx : Nat),
      (fillAnswers g b menu idx []).2 = false →
      ∃ m, m < menu.length ∧
        (fillAnswers g b menu idx []).1.map Prod.fst = List.range' idx m := by
  intro menu
  induction menu with
  | nil => intro idx h; simp [fillAnswers] at h
  | cons fu rest ih =>
    intro idx h2
    cases hg : g.followupAnswer b fu with
    | none =>
      refine ⟨0, by simp, ?_⟩
      simp [fillAnswers, hg, List.range']
    | some a =>
      simp only [fillAnswers, hg, List.nil_append] at h2 ⊢
      rw [fill_acc g b rest (idx + 1) [(idx, a)]] at h2 ⊢
      obtain ⟨m, hm, hkeys⟩ := ih (idx + 1) (by simpa using h2)
      refine ⟨m + 1, by simp; omega, ?_⟩
      rw [List.range'_succ]
      simp [hkeys]

lemma fill_entry_true (g : Gen) (b : List Char) :
    ∀ (menu : List (List Char)) (idx : Nat),
      (fillAnswers g b menu idx []).2 = true →
      ∀ (j : Nat) (q : List Char), menu[j]? = some q →
        ∃ a, g.followupAnswer b q = some a ∧
          (fillAnswers g b menu idx []).1[j]? = some (idx + j, a) := by
  intro menu
  induction menu with
  | nil => intro idx _ j q hj; simp at hj
  | cons fu rest ih =>
    intro idx h2 j q hj
    cases hg : g.followupAnswer b fu with
    | none => simp [fillAnswers, hg] at h2
    | some a0 =>
      simp only [fillAnswers, hg, List.nil_append] at h2 ⊢
      rw [fill_acc g b rest (idx + 1) [(idx, a0)]] at h2 ⊢
      cases j with
      | zero =>
        rw [List.getElem?_cons_zero] at hj
        cases hj
        exact ⟨a0, hg, by simp⟩
      | succ j =>
        rw [List.getElem?_cons_succ] at hj
        obtain ⟨a, ha, hpos⟩ := ih (idx + 1) (by simpa using h2) j q hj
        refine ⟨a, ha, ?_⟩
        have harith : idx + (j + 1) = idx + 1 + j := by omega
        rw [harith]
        simpa using hpos

lemma lookupNat_isSome_iff : ∀ (d : List (Nat × List Char)) (i : Nat),
    (lookupNat d i).isSome = true ↔ i ∈ d.map Prod.fst := by
  intro d
  induction d with
  | nil => intro i; simp [lookupNat]
  | cons kv rest ih =>
    intro i
    obtain ⟨key, v⟩ := kv
    simp only [lookupNat, List.map_cons, List.mem_cons]
    by_cases hk : key = i
    · rw [if_pos hk]
      simp [hk]
    · rw [if_neg hk]
      constructor
      · intro h
        exact Or.inr ((ih i).mp h)
      · rintro (h | h)
        · exact absurd h.symm hk
        · exact (ih i).mpr h

lemma lookupNat_of_getElem : ∀ (d : List (Nat × List Char)),
    (d.map Prod.fst).Nodup →
    ∀ (j key : Nat) (a : List Char), d[j]? = some (key, a) →
      lookupNat d key = some a := by
  intro d
  induction d with
  | nil => intro _ j key a h; simp at h
  | cons kv rest ih =>
    intro hnd j key a h
    obtain ⟨k0, v0⟩ := kv
    cases j with
    | zero =>
      rw [List.getElem?_cons_zero] at h
      cases h
      simp [lookupNat]
    | succ j =>
      rw [List.getElem?_cons_succ] at h
      have hkey : key ∈ rest.map Prod.fst :=
        List.mem_map.mpr ⟨(key, a), List.getElem?_mem h, rfl⟩
      rw [List.map_cons] at hnd
      have hnd' := List.nodup_cons.mp hnd
      have hk0 : ¬(k0 = key) := by
        intro he
        exact hnd'.1 (he ▸ hkey)
      simp only [lookupNat]
      rw [if_neg hk0]
      exact ih hnd'.2 j key a h

lemma dictGet_isSome_iff {d : List (Nat × List Char)} {n : Nat}
    (hkeys : d.map Prod.fst = List.range' 1 n) (i : Int) :
    (dictGet d i).isSome = true ↔ (1 ≤ i ∧ i ≤ (n : Int)) := by
  unfold dictGet
  by_cases h0 : 0 ≤ i
  · rw [if_pos h0, lookupNat_isSome_iff, hkeys, List.mem_range'_1]
    constructor
    · rintro ⟨h1, h2⟩
      omega
    · rintro ⟨h1, h2⟩
      omega
  · rw [if_neg h0]
    simp only [Option.isSome_none, Bool.false_eq_true, false_iff]
    omega

/-! ### `ask` and `rotate_next_layer`: success and failure shapes -/

lemma ask_success {g : Gen} {s : ConvState} {q : List Char} {s' : ConvState}
    {r : List Char × List (List Char)} (h : ask g s q = (s', some r)) :
    ∃ ma menu' acc,
      g.mainAnswer q = some ma ∧
      forward g (askCtx q ma) s.k = some menu' ∧
      fillAnswers g q menu' 1 [] = (acc, true) ∧
      s' = { s with base := some q, menu := menu', answers := acc } ∧
      r = (ma ++ menu_text menu', menu') := by
  simp only [ask] at h
  cases hm : g.mainAnswer q with
  | none => simp [hm] at h
  | some ma =>
    simp only [hm] at h
    cases hf : forward g (askCtx q ma) s.k with
    | none => simp [hf] at h
    | some menu' =>
      simp only [hf] at h
      rcases hfill : fillAnswers g q menu' 1 [] with ⟨acc, ok⟩
      simp only [hfill] at h
      cases ok with
      | false => simp at h
      | true =>
        refine ⟨ma, menu', acc, rfl, hf, hfill, ?_, ?_⟩
        · have := congrArg Prod.fst h
          simpa using this.symm
        · have := congrArg Prod.snd h
          simpa using this.symm

lemma ask_failure {g : Gen} {s : ConvState} {q : List Char} {s' : ConvState}
    (h : ask g s q = (s', none)) :
    s'.base = some q ∧
    ((s'.menu = s.menu ∧ s'.answers = s.answers) ∨
     ∃ m, m < s'.menu.length ∧ s'.answers.map Prod.fst = List.range' 1 m) := by
  simp only [ask] at h
  cases hm : g.mainAnswer q with
  | none =>
    have hs : { s with base := some q } = s' := by
      simp only [hm] at h
      have := congrArg Prod.fst h
      simpa using this
    subst hs
    exact ⟨rfl, Or.inl ⟨rfl, rfl⟩⟩
  | some ma =>
    simp only [hm] at h
    cases hf : forward g (askCtx q ma) s.k with
    | none =>
      have hs : { s with base := some q } = s' := by
        simp only [hf] at h
        have := congrArg Prod.fst h
        simpa using this
      subst hs
      exact ⟨rfl, Or.inl ⟨rfl, rfl⟩⟩
    | some menu' =>
      simp only [hf] at h
      rcases hfill : fillAnswers g q menu' 1 [] with ⟨acc, ok⟩
      simp only [hfill] at h
      cases ok with
      | true => simp at h
      | false =>
        have hs : { s with base := some q, menu := menu', answers := acc } = s' := by
          have := congrArg Prod.fst h
          simpa using this
        subst hs
        refine ⟨rfl, Or.inr ?_⟩
        have hkf := fill_keys_false g q menu' 1 (by rw [hfill])
        rw [hfill] at hkf
        simpa using hkf

lemma rotate_no_selection {g : Gen} {s : ConvState} {idx : Int}
    (h : pyGet s.menu (idx - 1) = none) :
    rotate_next_layer g s idx = (s, none) := by
  simp only [rotate_next_layer, h]

lemma rotate_failure {g : Gen} {s : ConvState} {idx : Int} {s' : ConvState}
    {fu : List Char} (hsel : pyGet s.menu (idx - 1) = some fu)
    (h : rotate_next_layer g s idx = (s', none)) :
    s'.base = some fu ∧
    ((s'.menu = s.menu ∧ s'.answers = s.answers) ∨
     ∃ m, m < s'.menu.length ∧ s'.answers.map Prod.fst = List.range' 1 m) := by
  simp only [rotate_next_layer, hsel] at h
  cases hf : forward g (rotCtx fu ((dictGet s.answers idx).getD [])) s.k with
  | none =>
    have hs : { s with base := some fu } = s' := by
      simp only [hf] at h
      have := congrArg Prod.fst h
      simpa using this
    subst hs
    exact ⟨rfl, Or.inl ⟨rfl, rfl⟩⟩
  | some menu' =>
    simp only [hf] at h
    rcases hfill : fillAnswers g fu menu' 1 [] with ⟨acc, ok⟩
    simp only [hfill] at h
    cases ok with
    | true => simp at h
    | false =>
      have hs : { s with base := some fu, menu := menu', answers := acc } = s' := by
        have := congrArg Prod.fst h
        simpa using this
      subst hs
      refine ⟨rfl, Or.inr ?_⟩
      have hkf := fill_keys_false g fu menu' 1 (by rw [hfill])
      rw [hfill] at hkf
      simpa using hkf

lemma rotate_success {g : Gen} {s : ConvState} {idx : Int} {s' : ConvState}
    {m' : List (List Char)} (h : rotate_next_layer g s idx = (s', some m')) :
    ∃ fu raw acc,
      pyGet s.menu (idx - 1) = some fu ∧
      g.proposeFollowups (rotCtx fu ((dictGet s.answers idx).getD [])) = some raw ∧
      parseMenu raw s.k = m' ∧
      fillAnswers g fu m' 1 [] = (acc, true) ∧
      s' = { s with base := some fu, menu := m', answers := acc } := by
  simp only [rotate_next_layer] at h
  cases hsel : pyGet s.menu (idx - 1) with
  | none => simp [hsel] at h
  | some fu =>
    simp only [hsel] at h
    cases hp : g.proposeFollowups (rotCtx fu ((dictGet s.answers idx).getD [])) with
    | none =>
      simp only [forward, hp] at h
      simp at h
    | some raw =>
      simp only [forward, hp] at h
      rcases hfill : fillAnswers g fu (parseMenu raw s.k) 1 [] with ⟨acc, ok⟩
      simp only [hfill] at h
      cases ok with
      | false => simp at h
      | true =>
        have hm' : parseMenu raw s.k = m' := by
          have := congrArg Prod.snd h
          simpa using this
        subst hm'
        refine ⟨fu, raw, acc, rfl, hp, rfl, hfill, ?_⟩
        have := congrArg Prod.fst h
        simpa using this.symm

lemma ask_inv {g : Gen} {s : ConvState} {q : List Char} {s' : ConvState}
    {r : List Char × List (List Char)} (h : ask g s q = (s', some r)) :
    s'.answers.map Prod.fst = List.range' 1 s'.menu.length := by
  obtain ⟨ma, menu', acc, _, _, hfill, hs', _⟩ := ask_success h
  subst hs'
  have hkeys := fill_keys_true g q menu' 1 (by rw [hfill])
  rw [hfill] at hkeys
  simpa using hkeys

lemma rotate_inv {g : Gen} {s : ConvState} {idx : Int} {s' : ConvState}
    {m' : List (List Char)} (h : rotate_next_layer g s idx = (s', some m')) :
    s'.answers.map Prod.fst = List.range' 1 s'.menu.length := by
  obtain ⟨fu, raw, acc, _, _, _, hfill, hs'⟩ := rotate_success h
  subst hs'
  have hkeys := fill_keys_true g fu m' 1 (by rw [hfill])
  rw [hfill] at hkeys
  simpa using hkeys

lemma rotate_base {g : Gen} {s : ConvState} {idx : Int} {fu : List Char}
    (hsel : pyGet s.menu (idx - 1) = some fu) :
    (rotate_next_layer g s idx).1.base = some fu := by
  simp only [rotate_next_layer, hsel]
  cases hf : forward g (rotCtx fu ((dictGet s.answers idx).getD [])) s.k with
  | none => simp
  | some menu' =>
    rcases hfill : fillAnswers g fu menu' 1 [] with ⟨acc, ok⟩
    simp only [hfill]
    cases ok <;> simp

/-! ### `splitlines` on break-free lines -/

lemma pyLinesGo_nil (cur : List Char) :
    pyLinesGo [] cur = if cur = [] then [] else [cur.reverse] := rfl

lemma pyLinesGo_break {c : Char} (h1 : isLineBreak c = true) (h2 : ¬ c = '\r')
    (rest cur : List Char) :
    pyLinesGo (c :: rest) cur = cur.reverse :: pyLinesGo rest [] := by
  cases rest with
  | nil => simp [pyLinesGo, h2, h1]
  | cons c2 rest2 => simp [pyLinesGo, h2, h1]

lemma pyLinesGo_nonbreak {c : Char} (h1 : isLineBreak c = false)
    (rest cur : List Char) :
    pyLinesGo (c :: rest) cur = pyLinesGo rest (c :: cur) := by
  have h2 : ¬ c = '\r' := by
    intro h
    subst h
    rw [show isLineBreak '\r' = true from by decide] at h1
    simp at h1
  cases rest with
  | nil => simp [pyLinesGo, h2, h1]
  | cons c2 rest2 => simp [pyLinesGo, h2, h1]

lemma pyLinesGo_newline (rest cur : List Char) :
    pyLinesGo ('\n' :: rest) cur = cur.reverse :: pyLinesGo rest [] :=
  pyLinesGo_break (by decide) (by decide) rest cur

lemma pyLinesGo_append_newline :
    ∀ (l : List Char), (∀ c ∈ l, isLineBreak c = false) →
    ∀ (rest cur : List Char),
      pyLinesGo (l ++ '\n' :: rest) cur = (cur.reverse ++ l) :: pyLinesGo rest [] := by
  intro l
  induction l with
  | nil =>
    intro _ rest cur
    rw [List.nil_append, pyLinesGo_newline]
    simp
  | cons c l' ih =>
    intro hbf rest cur
    have hc : isLineBreak c = false := hbf c (List.mem_cons_self c l')
    rw [List.cons_append, pyLinesGo_nonbreak hc,
      ih (fun d hd => hbf d (List.mem_cons_of_mem c hd)) rest (c :: cur)]
    simp

lemma pyLinesGo_noBreak :
    ∀ (l : List Char), (∀ c ∈ l, isLineBreak c = false) →
    ∀ (cur : List Char),
      pyLinesGo l cur = if cur.reverse ++ l = [] then [] else [cur.reverse ++ l] := by
  intro l
  induction l with
  | nil =>
    intro _ cur
    rw [pyLinesGo_nil]
    simp
  | cons c l' ih =>
    intro hbf cur
    have hc : isLineBreak c = false := hbf c (List.mem_cons_self c l')
    rw [pyLinesGo_nonbreak hc,
      ih (fun d hd => hbf d (List.mem_cons_of_mem c hd)) (c :: cur),
      List.reverse_cons, List.append_assoc]
    rfl

lemma pyLinesGo_cr (rest cur : List Char) :
    pyLinesGo ('\r' :: rest) cur =
      cur.reverse :: pyLinesGo (if rest.head? = some '\n' then rest.tail else rest) [] := by
  cases rest with
  | nil => rfl
  | cons c2 rest2 =>
    by_cases h2 : c2 = '\n'
    · subst h2
      rfl
    · have hstep : pyLinesGo ('\r' :: c2 :: rest2) cur =
          cur.reverse :: pyLinesGo (c2 :: rest2) [] := by
        simp [pyLinesGo, h2]
      rw [hstep]
      simp [List.head?, h2]

lemma pyLinesGo_lines_breakfree_fuel :
    ∀ (N : Nat) (cs cur : List Char), cs.length ≤ N →
      (∀ c ∈ cur, isLineBreak c = false) →
      ∀ L ∈ pyLinesGo cs cur, ∀ c ∈ L, isLineBreak c = false := by
  intro N
  induction N with
  | zero =>
    intro cs cur hlen hcur L hL
    have hcs : cs = [] := by
      cases cs with
      | nil => rfl
      | cons c rest => simp at hlen
    subst hcs
    rw [pyLinesGo_nil] at hL
    by_cases hc : cur = []
    · rw [if_pos hc] at hL
      simp at hL
    · rw [if_neg hc] at hL
      simp at hL
      subst hL
      intro c hc'
      exact hcur c (List.mem_reverse.mp hc')
  | succ N ih =>
    intro cs cur hlen hcur L hL
    cases cs with
    | nil =>
      rw [pyLinesGo_nil] at hL
      by_cases hc : cur = []
      · rw [if_pos hc] at hL
        simp at hL
      · rw [if_neg hc] at hL
        simp at hL
        subst hL
        intro c hc'
        exact hcur c (List.mem_reverse.mp hc')
    | cons c rest =>
      have hrest : rest.length ≤ N := by
        simp at hlen
        omega
      by_cases hcr : c = '\r'
      · subst hcr
        rw [pyLinesGo_cr] at hL
        rcases List.mem_cons.mp hL with h | h
        · subst h
          intro d hd
          exact hcur d (List.mem_reverse.mp hd)
        · have hlen' : (if rest.head? = some '\n' then rest.tail else rest).length ≤ N := by
            split
            · simp [List.length_tail]
              omega
            · exact hrest
          exact ih _ [] hlen' (by simp) L h
      · by_cases hb : isLineBreak c
        · rw [pyLinesGo_break hb hcr rest cur] at hL
          rcases List.mem_cons.mp hL with h | h
          · subst h
            intro d hd
            exact hcur d (List.mem_reverse.mp hd)
          · exact ih rest [] hrest (by simp) L h
        · have hb' : isLineBreak c = false := by
            cases hx : isLineBreak c
            · rfl
            · exact absurd hx hb
          rw [pyLinesGo_nonbreak hb' rest cur] at hL
          refine ih rest (c :: cur) hrest ?_ L hL
          intro d hd
          rcases List.mem_cons.mp hd with h | h
          · exact h ▸ hb'
          · exact hcur d h

lemma pyLinesGo_lines_breakfree (cs cur : List Char)
    (hcur : ∀ c ∈ cur, isLineBreak c = false) :
    ∀ L ∈ pyLinesGo cs cur, ∀ c ∈ L, isLineBreak c = false :=
  pyLinesGo_lines_breakfree_fuel cs.length cs cur (Nat.le_refl _) hcur

/-! ### Decimal rendering facts -/

lemma digitChar_isDigit (n : Nat) : isDigitC (digitChar n) = true := by
  unfold digitChar
  repeat' split
  all_goals decide

lemma natReprCore_digits :
    ∀ (fuel n : Nat) (acc : List Char), (∀ c ∈ acc, isDigitC c = true) →
      ∀ c ∈ natReprCore fuel n acc, isDigitC c = true := by
  intro fuel
  induction fuel with
  | zero =>
    intro n acc hacc c hc
    exact hacc c hc
  | succ fuel ih =>
    intro n acc hacc c hc
    rw [natReprCore] at hc
    have hstep : ∀ d ∈ digitChar (n % 10) :: acc, isDigitC d = true := by
      intro d hd
      rcases List.mem_cons.mp hd with h | h
      · exact h ▸ digitChar_isDigit (n % 10)
      · exact hacc d h
    by_cases h10 : n < 10
    · rw [if_pos h10] at hc
      exact hstep c hc
    · rw [if_neg h10] at hc
      exact ih (n / 10) _ hstep c hc

lemma natReprCore_ne_nil :
    ∀ (fuel n : Nat) (acc : List Char), 0 < fuel ∨ acc ≠ [] →
      natReprCore fuel n acc ≠ [] := by
  intro fuel
  induction fuel with
  | zero =>
    intro n acc h
    rcases h with h | h
    · omega
    · exact h
  | succ fuel ih =>
    intro n acc _
    rw [natReprCore]
    by_cases h10 : n < 10
    · rw [if_pos h10]
      simp
    · rw [if_neg h10]
      exact ih (n / 10) _ (Or.inr (by simp))

lemma natRepr_digits {n : Nat} : ∀ c ∈ natReprL n, isDigitC c = true :=
  natReprCore_digits (n + 1) n [] (by simp)

lemma natRepr_ne_nil (n : Nat) : natReprL n ≠ [] :=
  natReprCore_ne_nil (n + 1) n [] (Or.inl (by omega))

lemma isDigitC_bounds {c : Char} (h : isDigitC c = true) :
    48 ≤ c.toNat ∧ c.toNat ≤ 57 := by
  simpa [isDigitC] using h

set_option maxRecDepth 4000 in
lemma digit_not_space {c : Char} (h : isDigitC c = true) : isPySpace c = false := by
  have h' := isDigitC_bounds h
  simp only [isPySpace, Bool.or_eq_false_iff, Bool.and_eq_false_iff,
    decide_eq_false_iff_not]
  omega

set_option maxRecDepth 4000 in
lemma digit_not_break {c : Char} (h : isDigitC c = true) : isLineBreak c = false := by
  have h' := isDigitC_bounds h
  simp only [isLineBreak, Bool.or_eq_false_iff, Bool.and_eq_false_iff,
    decide_eq_false_iff_not]
  omega

lemma digit_not_bullet {c : Char} (h : isDigitC c = true) : ¬(c = '-' ∨ c = '•') := by
  rintro (hb | hb) <;> subst hb <;> exact absurd h (by decide)

/-! ### Every parse output token is good -/

lemma matchCore_some {X Y g : List Char}
    (h : (match coreOf X with
          | some g => some g
          | none => coreOf Y) = some g) :
    g = rtrimL X ∨ g = rtrimL Y := by
  cases hx : coreOf X with
  | some g0 =>
    simp only [hx] at h
    rw [coreOf_eq] at hx
    by_cases hX : rtrimL X = []
    · rw [if_pos hX] at hx
      simp at hx
    · rw [if_neg hX] at hx
      left
      rw [← Option.some.inj h, ← Option.some.inj hx]
  | none =>
    simp only [hx] at h
    rw [coreOf_eq] at h
    by_cases hY : rtrimL Y = []
    · rw [if_pos hY] at h
      simp at h
    · rw [if_neg hY] at h
      right
      exact (Option.some.inj h).symm

lemma reGroup1_shape {raw : List Char} {c : Char} {rest g : List Char}
    (h0 : raw.dropWhile isPySpace = c :: rest) (h : reGroup1 raw = some g) :
    g = rtrimL (c :: rest) ∨ g = rtrimL (rest.dropWhile isPySpace) ∨
    ∃ n : Nat, g = rtrimL (((c :: rest).drop n).dropWhile isPySpace) := by
  rw [reGroup1_eq_cons h0] at h
  by_cases hb : c = '-' ∨ c = '•'
  · rw [if_pos hb] at h
    rcases matchCore_some h with h1 | h1
    · exact Or.inr (Or.inl h1)
    · exact Or.inl h1
  · rw [if_neg hb] at h
    by_cases hd : (c :: rest).takeWhile isDigitC ≠ [] ∧
        ((c :: rest).drop ((c :: rest).takeWhile isDigitC).length).head? = some '.'
    · rw [if_pos hd] at h
      rcases matchCore_some h with h1 | h1
      · exact Or.inr (Or.inr ⟨_, h1⟩)
      · exact Or.inl h1
    · rw [if_neg hd] at h
      rw [coreOf_eq] at h
      by_cases hY : rtrimL (c :: rest) = []
      · rw [if_pos hY] at h
        simp at h
      · rw [if_neg hY] at h
        exact Or.inl (Option.some.inj h).symm

lemma reGroup1_mem {raw g : List Char} (h : reGroup1 raw = some g) :
    ∀ d ∈ g, d ∈ raw := by
  cases h0 : raw.dropWhile isPySpace with
  | nil =>
    rw [reGroup1_eq_nil h0] at h
    simp at h
  | cons c rest =>
    have hsub : ∀ x, x ∈ c :: rest → x ∈ raw := fun x hx => mem_dropWhile (h0 ▸ hx)
    intro d hd
    rcases reGroup1_shape h0 h with h1 | h1 | ⟨n, h1⟩
    · exact hsub d (mem_rtrim (h1 ▸ hd))
    · exact hsub d (List.mem_cons_of_mem c (mem_dropWhile (mem_rtrim (h1 ▸ hd))))
    · exact hsub d (List.mem_of_mem_drop (mem_dropWhile (mem_rtrim (h1 ▸ hd))))

lemma candOf_good {raw t : List Char} (hcand : candOf raw = some t)
    (hbfr : ∀ c ∈ raw, isLineBreak c = false) : GoodTok t := by
  unfold candOf at hcand
  cases hlt : lineToken raw with
  | none =>
    rw [hlt] at hcand
    simp at hcand
  | some t0 =>
    simp only [hlt] at hcand
    by_cases hh : isHeader t0
    · rw [if_pos hh] at hcand
      simp at hcand
    · rw [if_neg hh] at hcand
      have ht0 : t0 = t := Option.some.inj hcand
      subst ht0
      unfold lineToken at hlt
      cases hg : reGroup1 raw with
      | none =>
        rw [hg] at hlt
        simp at hlt
      | some g0 =>
        simp only [hg] at hlt
        by_cases hz : pyStripL g0 = []
        · rw [if_pos hz] at hlt
          simp at hlt
        · rw [if_neg hz] at hlt
          have ht : pyStripL g0 = t0 := Option.some.inj hlt
          refine ⟨ht ▸ hz, ht ▸ pyStrip_ltrim_fix g0, ht ▸ pyStrip_rtrim_fix g0, ?_,
            by simpa using hh⟩
          intro c hc
          rw [← ht] at hc
          exact hbfr c (reGroup1_mem hg c (mem_pyStrip hc))

lemma parseMenu_eq_collect (text : List Char) (k : Nat) :
    parseMenu text k = collect k (candidates text) [] [] := by
  unfold parseMenu candidates
  exact parseGo_eq_collect k (pyLines text) [] []

lemma parse_good {text : List Char} {k : Nat} {t : List Char}
    (ht : t ∈ parseMenu text k) : GoodTok t := by
  rw [parseMenu_eq_collect] at ht
  rcases collect_mem k _ _ _ ht with h | h
  · simp at h
  · obtain ⟨raw, hraw, hcand⟩ := List.mem_filterMap.mp h
    exact candOf_good hcand (pyLinesGo_lines_breakfree text [] (by simp) raw hraw)

lemma parse_nodup (text : List Char) (k : Nat) : (parseMenu text k).Nodup := by
  rw [parseMenu_eq_collect]
  exact collect_nodup k _ [] [] List.nodup_nil (by simp)

/-! ### Re-parsing the rendered menu -/

lemma takeWhile_append_all {A B : List Char} {b : Char} {p : Char → Bool}
    (hA : ∀ c ∈ A, p c = true) (hb : p b = false) :
    (A ++ b :: B).takeWhile p = A := by
  induction A with
  | nil => simp [List.takeWhile_cons, hb]
  | cons a A' ih =>
    have ha : p a = true := hA a (List.mem_cons_self a A')
    simp only [List.cons_append, List.takeWhile_cons, ha, if_true]
    rw [ih (fun c hc => hA c (List.mem_cons_of_mem a hc))]

lemma drop_marker {A B : List Char} {b : Char} :
    (A ++ b :: B).drop (A.length + 1) = B := by
  have h : A ++ b :: B = (A ++ [b]) ++ B := by simp
  have h2 : (A ++ [b]).length = A.length + 1 := by simp
  rw [h, ← h2, List.drop_left]

lemma lineToken_render {i : Nat} {q : List Char}
    (hne : q ≠ []) (hlt : q.dropWhile isPySpace = q) (hrt : rtrimL q = q) :
    lineToken (renderLine i q) = some q := by
  obtain ⟨d0, ds, hnr⟩ : ∃ d0 ds, natReprL (i + 1) = d0 :: ds := by
    cases hq : natReprL (i + 1) with
    | nil => exact absurd hq (natRepr_ne_nil (i + 1))
    | cons d0 ds => exact ⟨d0, ds, rfl⟩
  have hd0 : isDigitC d0 = true :=
    natRepr_digits d0 (by rw [hnr]; exact List.mem_cons_self d0 ds)
  have hshape : renderLine i q = d0 :: (ds ++ '.' :: ' ' :: q) := by
    unfold renderLine
    rw [hnr]
    rfl
  have hfull : d0 :: (ds ++ '.' :: ' ' :: q) = natReprL (i + 1) ++ '.' :: ' ' :: q := by
    rw [hnr]
    rfl
  have h0 : (renderLine i q).dropWhile isPySpace = d0 :: (ds ++ '.' :: ' ' :: q) := by
    rw [hshape, List.dropWhile_cons, if_neg (by simp [digit_not_space hd0])]
  have htw : (d0 :: (ds ++ '.' :: ' ' :: q)).takeWhile isDigitC = natReprL (i + 1) := by
    rw [hfull]
    exact takeWhile_append_all natRepr_digits (by decide)
  have hcond : (d0 :: (ds ++ '.' :: ' ' :: q)).takeWhile isDigitC ≠ [] ∧
      ((d0 :: (ds ++ '.' :: ' ' :: q)).drop
        ((d0 :: (ds ++ '.' :: ' ' :: q)).takeWhile isDigitC).length).head? = some '.' := by
    rw [htw]
    refine ⟨natRepr_ne_nil (i + 1), ?_⟩
    rw [hfull, List.drop_left]
    rfl
  have hdrop : (d0 :: (ds ++ '.' :: ' ' :: q)).drop ((natReprL (i + 1)).length + 1) = ' ' :: q := by
    rw [hfull]
    exact drop_marker
  have hsp : (' ' :: q).dropWhile isPySpace = q := by
    rw [List.dropWhile_cons, if_pos (by decide)]
    exact hlt
  have hr : reGroup1 (renderLine i q) = some q := by
    rw [reGroup1_eq_cons h0, if_neg (digit_not_bullet hd0), if_pos hcond, htw, hdrop,
      hsp, coreOf_eq, hrt, if_neg hne]
  rw [lineToken_of_some hr, pyStrip_of_fixed hlt hrt, if_neg hne]

lemma candOf_render {i : Nat} {q : List Char} (hg : GoodTok q) :
    candOf (renderLine i q) = some q := by
  obtain ⟨hne, hlt, hrt, _, hhd⟩ := hg
  exact candOf_of_cand (lineToken_render hne hlt hrt) hhd

lemma menuLines_good : ∀ (menu : List (List Char)), (∀ q ∈ menu, GoodTok q) →
    ∀ (i : Nat), ∀ L ∈ menuLines i menu,
      (∀ c ∈ L, isLineBreak c = false) ∧ L ≠ [] := by
  intro menu
  induction menu with
  | nil => intro _ i L hL; simp [menuLines] at hL
  | cons q rest ih =>
    intro hg i L hL
    rw [show menuLines i (q :: rest) = renderLine i q :: menuLines (i + 1) rest from rfl] at hL
    rcases List.mem_cons.mp hL with h | h
    · subst h
      constructor
      · intro c hc
        unfold renderLine at hc
        rcases List.mem_append.mp hc with h1 | h1
        · exact digit_not_break (natRepr_digits c h1)
        · rcases List.mem_cons.mp h1 with h2 | h2
          · subst h2; decide
          · rcases List.mem_cons.mp h2 with h3 | h3
            · subst h3; decide
            · exact (hg q (List.mem_cons_self q rest)).2.2.2.1 c h3
      · unfold renderLine
        intro hnil
        simp at hnil
    · exact ih (fun q' hq' => hg q' (List.mem_cons_of_mem q hq')) (i + 1) L h

lemma menuLines_filterMap : ∀ (menu : List (List Char)), (∀ q ∈ menu, GoodTok q) →
    ∀ (i : Nat), (menuLines i menu).filterMap candOf = menu := by
  intro menu
  induction menu with
  | nil => intro _ i; rfl
  | cons q rest ih =>
    intro hg i
    rw [show menuLines i (q :: rest) = renderLine i q :: menuLines (i + 1) rest from rfl]
    rw [List.filterMap_cons]
    simp only [candOf_render (hg q (List.mem_cons_self q rest))]
    rw [ih (fun q' hq' => hg q' (List.mem_cons_of_mem q hq')) (i + 1)]

lemma joinLines_single (L : List Char) : joinLines [L] = L := rfl

lemma joinLines_cons (L L2 : List Char) (rest : List (List Char)) :
    joinLines (L :: L2 :: rest) = L ++ '\n' :: joinLines (L2 :: rest) := rfl

lemma pyLines_joinLines : ∀ (ls : List (List Char)),
    (∀ L ∈ ls, (∀ c ∈ L, isLineBreak c = false) ∧ L ≠ []) →
    ls ≠ [] → pyLinesGo (joinLines ls) [] = ls := by
  intro ls
  induction ls with
  | nil => intro _ h; exact absurd rfl h
  | cons L rest ih =>
    intro hall _
    cases rest with
    | nil =>
      rw [joinLines_single,
        pyLinesGo_noBreak L (hall L (List.mem_cons_self L [])).1 []]
      simp only [List.reverse_nil, List.nil_append]
      rw [if_neg (hall L (List.mem_cons_self L [])).2]
    | cons L2 rest2 =>
      rw [joinLines_cons,
        pyLinesGo_append_newline L (hall L (List.mem_cons_self L (L2 :: rest2))).1
          (joinLines (L2 :: rest2)) [],
        ih (fun L' hL' => hall L' (List.mem_cons_of_mem L hL')) (by simp)]
      simp

lemma candidates_menu_text {menu : List (List Char)} (hmne : menu ≠ [])
    (hg : ∀ q ∈ menu, GoodTok q) :
    candidates (menu_text menu) = menu := by
  unfold candidates
  rw [show menu_text menu =
      '\n' :: '\n' :: ("Follow-ups:".data ++ '\n' :: joinLines (menuLines 0 menu)) from by
    unfold menu_text
    rw [if_neg hmne]
    rfl]
  unfold pyLines
  rw [pyLinesGo_newline, pyLinesGo_newline,
    pyLinesGo_append_newline ("Follow-ups:".data) (by decide) _ [],
    pyLines_joinLines (menuLines 0 menu) (menuLines_good menu hg 0) ?_]
  · simp only [List.reverse_nil, List.nil_append]
    rw [List.filterMap_cons, List.filterMap_cons, List.filterMap_cons]
    simp only [show candOf ([] : List Char) = none from by decide,
      show candOf ("Follow-ups:".data) = none from by decide]
    exact menuLines_filterMap menu hg 0
  · cases menu with
    | nil => exact absurd rfl hmne
    | cons q rest => simp [menuLines]

lemma parse_render {menu : List (List Char)} {k : Nat}
    (hg : ∀ q ∈ menu, GoodTok q) (hnd : menu.Nodup) (hk : menu.length ≤ k) :
    parseMenu (menu_text menu) k = menu := by
  by_cases hmne : menu = []
  · subst hmne
    have h1 : menu_text [] = [] := by unfold menu_text; simp
    have h2 : pyLines ([] : List Char) = [] := by
      unfold pyLines
      rw [pyLinesGo_nil]
      simp
    unfold parseMenu
    rw [h1, h2]
    rfl
  · rw [parseMenu_eq_collect, candidates_menu_text hmne hg,
      collect_run k menu [] [] (by simpa using hk) hnd (by simp)]
    simp

/-! ### Remaining support lemmas -/

lemma parse_take_dedup {text : List Char} {k : Nat} (hk : 0 < k) :
    parseMenu text k = (dedupFirst (candidates text)).take k := by
  rw [parseMenu_eq_collect]
  unfold dedupFirst
  rw [collect_eq_take k (candidates text) [] [] (by simpa using hk)]
  simp

lemma pyGet_none_iff (xs : List (List Char)) (idx : Int) :
    pyGet xs (idx - 1) = none ↔
      ((xs.length : Int) < idx ∨ idx ≤ -(xs.length : Int)) := by
  unfold pyGet
  by_cases h0 : 0 ≤ idx - 1
  · rw [if_pos h0, List.getElem?_eq_none_iff]
    constructor
    · intro h
      omega
    · intro h
      omega
  · rw [if_neg h0]
    by_cases h1 : -((xs.length : Nat) : Int) ≤ idx - 1
    · rw [if_pos h1]
      have hidx : xs.length - (-(idx - 1)).toNat < xs.length := by omega
      rw [List.getElem?_eq_getElem hidx]
      constructor
      · intro h
        simp at h
      · intro h
        exfalso
        omega
    · rw [if_neg h1]
      constructor
      · intro _
        omega
      · intro _
        rfl

lemma pyGet_last {xs : List (List Char)} (h : xs ≠ []) :
    pyGet xs (0 - 1) = some (xs.getLast h) := by
  have hlen : 1 ≤ xs.length := by
    cases xs with
    | nil => exact absurd rfl h
    | cons a l => simp
  unfold pyGet
  rw [if_neg (by omega), if_pos (by omega)]
  have ht : ((-(0 - 1 : Int)).toNat) = 1 := by decide
  rw [ht, List.getLast_eq_getElem xs h]
  exact List.getElem?_eq_getElem (by omega)

/-! ### The claims -/

/-- C1 counterexample: with a generator whose follow-up-answer call
fails on the second entry of the new menu, `rotate_next_layer` aborts
(no result), yet the state observed afterwards differs from the state
before the call — the new Menu was published with a partially filled
AnswerCache, refuting "the ConversationState observed after the call
equals the ConversationState before the call". -/
theorem claim_C1_cex :
    (rotate_next_layer genMidFail sTwo 1).2 = none ∧
    (rotate_next_layer genMidFail sTwo 1).1 ≠ sTwo := by
  constructor
  · decide
  · decide

/-- C1 (amended): if a TextGenerator call fails partway through `ask`
or `rotate_next_layer`, the operation aborts (returns no result), but
the ConversationState may be left modified: the base question has
already been set to the new value, and either the prior Menu and
AnswerCache are still in place (failure before the menu assignment) or
the new Menu has been published with a cache covering only a proper
prefix 1..m of its indices.  Only when the selection lookup itself
fails is the prior state returned untouched. -/
theorem claim_C1_amended :
    (∀ (g : Gen) (s : ConvState) (q : List Char) (s' : ConvState),
       ask g s q = (s', none) →
       s'.base = some q ∧
       ((s'.menu = s.menu ∧ s'.answers = s.answers) ∨
        ∃ m, m < s'.menu.length ∧ s'.answers.map Prod.fst = List.range' 1 m)) ∧
    (∀ (g : Gen) (s : ConvState) (idx : Int) (s' : ConvState) (fu : List Char),
       pyGet s.menu (idx - 1) = some fu →
       rotate_next_layer g s idx = (s', none) →
       s'.base = some fu ∧
       ((s'.menu = s.menu ∧ s'.answers = s.answers) ∨
        ∃ m, m < s'.menu.length ∧ s'.answers.map Prod.fst = List.range' 1 m)) ∧
    (∀ (g : Gen) (s : ConvState) (idx : Int),
       pyGet s.menu (idx - 1) = none → rotate_next_layer g s idx = (s, none)) :=
  ⟨fun _ _ _ _ h => ask_failure h,
   fun _ _ _ _ _ hsel h => rotate_failure hsel h,
   fun _ _ _ h => rotate_no_selection h⟩

/-- Witness for C1 (amended) at a concrete failing rotation. -/
theorem claim_C1_amended_witness :
    (⟨4, some ("q1".data), ["n1".data, "n2".data], [(1, "x".data)]⟩ : ConvState).base =
        some ("q1".data) ∧
    ((((⟨4, some ("q1".data), ["n1".data, "n2".data], [(1, "x".data)]⟩ : ConvState).menu = sTwo.menu ∧
       (⟨4, some ("q1".data), ["n1".data, "n2".data], [(1, "x".data)]⟩ : ConvState).answers = sTwo.answers)) ∨
     ∃ m, m < (⟨4, some ("q1".data), ["n1".data, "n2".data], [(1, "x".data)]⟩ : ConvState).menu.length ∧
       (⟨4, some ("q1".data), ["n1".data, "n2".data], [(1, "x".data)]⟩ : ConvState).answers.map Prod.fst =
         List.range' 1 m) :=
  claim_C1_amended.2.1 genMidFail sTwo 1
    ⟨4, some ("q1".data), ["n1".data, "n2".data], [(1, "x".data)]⟩ ("q1".data)
    (by decide) (by decide)

/-- C2: after every successful `ask` and any subsequent chain of
successful `rotate_next_layer` calls, the AnswerCache key set is
exactly the integers 1..len(menu): `dict.get` hits precisely the
indices in that range. -/
theorem claim_C2_cache_keys :
    ∀ (g : Gen) (s : ConvState) (q : List Char) (s1 : ConvState)
      (r : List Char × List (List Char)) (s2 : ConvState),
      ask g s q = (s1, some r) → RotReach s1 s2 →
      ∀ i : Int, (dictGet s2.answers i).isSome = true ↔
        (1 ≤ i ∧ i ≤ (s2.menu.length : Int)) := by
  intro g s q s1 r s2 hask hreach
  have hinv : s2.answers.map Prod.fst = List.range' 1 s2.menu.length := by
    induction hreach with
    | refl => exact ask_inv hask
    | step t u g' idx m hr hstep ih => exact rotate_inv hstep
  exact dictGet_isSome_iff hinv

/-- Witness for C2 at a concrete successful `ask` (empty rotation
chain). -/
theorem claim_C2_cache_keys_witness :
    (dictGet sAsk1.answers 1).isSome = true ↔
      (1 ≤ (1 : Int) ∧ (1 : Int) ≤ (sAsk1.menu.length : Int)) :=
  claim_C2_cache_keys genOk sEmpty ("hi".data) sAsk1 rAsk1 sAsk1
    (by decide) (RotReach.refl sAsk1) 1

/-- C3: `peek_immediate` returns the out-of-range message naming the
menu length for every index outside [1, len(menu)] (for a menu of
length 3 and index 5, exactly "Please choose a number between 1 and
3."), never failing, and returns the cached answer stored at every
in-range index. -/
theorem claim_C3_peek_range :
    (∀ (s : ConvState) (idx : Int), ¬(1 ≤ idx ∧ idx ≤ (s.menu.length : Int)) →
      (peek_immediate s idx).2 = oorMsg s.menu.length) ∧
    (peek_immediate sThree 5).2 = "Please choose a number between 1 and 3.".data ∧
    (∀ (s : ConvState) (idx : Int) (a : List Char),
      1 ≤ idx → idx ≤ (s.menu.length : Int) → dictGet s.answers idx = some a →
      (peek_immediate s idx).2 = a) := by
  refine ⟨?_, by decide, ?_⟩
  · intro s idx h
    unfold peek_immediate
    rw [if_pos h]
  · intro s idx a h1 h2 ha
    unfold peek_immediate
    rw [if_neg (not_not_intro ⟨h1, h2⟩)]
    simp [ha]

/-- Witness for C3 at concrete out-of-range and in-range lookups. -/
theorem claim_C3_peek_range_witness :
    (peek_immediate sThree 0).2 = oorMsg sThree.menu.length ∧
    (peek_immediate sThree 2).2 = "x2".data :=
  ⟨claim_C3_peek_range.1 sThree 0 (by decide),
   claim_C3_peek_range.2.2 sThree 2 ("x2".data) (by decide) (by decide) (by decide)⟩

/-- C4: `peek_immediate` is a pure read: for every index (in or out of
range) and every ConversationState, the state after the call has the
same base question, Menu, and AnswerCache as before. -/
theorem claim_C4_peek_pure (s : ConvState) (idx : Int) :
    (peek_immediate s idx).1.base = s.base ∧
    (peek_immediate s idx).1.menu = s.menu ∧
    (peek_immediate s idx).1.answers = s.answers := by
  unfold peek_immediate
  split
  · exact ⟨rfl, rfl, rfl⟩
  · exact ⟨rfl, rfl, rfl⟩

/-- C5: for every raw text and every limit > 0, the parser returns at
most `limit` items, pairwise distinct; the items are exactly the
first-occurrence deduplication of the candidate line stream truncated
at `limit` — order of first occurrence, later duplicates discarded,
lines after the limit ignored. -/
theorem claim_C5_parse_contract (text : List Char) (k : Nat) (hk : 0 < k) :
    (parseMenu text k).length ≤ k ∧ (parseMenu text k).Nodup ∧
    parseMenu text k = (dedupFirst (candidates text)).take k := by
  refine ⟨?_, parse_nodup text k, parse_take_dedup hk⟩
  rw [parse_take_dedup hk, List.length_take]
  exact Nat.min_le_left _ _

/-- Witness for C5 on the duplicate-bearing proposal text of the
spec's Scenario 1. -/
theorem claim_C5_parse_contract_witness :
    (parseMenu ("1. What is UDP?\n2. What is UDP?\n3. How does handshake work?".data) 4).length ≤ 4 ∧
    (parseMenu ("1. What is UDP?\n2. What is UDP?\n3. How does handshake work?".data) 4).Nodup ∧
    parseMenu ("1. What is UDP?\n2. What is UDP?\n3. How does handshake work?".data) 4 =
      (dedupFirst (candidates ("1. What is UDP?\n2. What is UDP?\n3. How does handshake work?".data))).take 4 :=
  claim_C5_parse_contract ("1. What is UDP?\n2. What is UDP?\n3. How does handshake work?".data) 4
    (by decide)

/-- C6: the parser is idempotent on its own rendered output: for every
menu produced by a prior parse and any limit at least its length,
parsing the "Follow-ups:" numbered-list rendering yields exactly the
same sequence. -/
theorem claim_C6_parse_idempotent (raw : List Char) (k0 k : Nat)
    (hk : (parseMenu raw k0).length ≤ k) :
    parseMenu (menu_text (parseMenu raw k0)) k = parseMenu raw k0 :=
  parse_render (fun _ hq => parse_good hq) (parse_nodup raw k0) hk

/-- Witness for C6 on a concrete two-entry menu. -/
theorem claim_C6_parse_idempotent_witness :
    (parseMenu ("Follow-ups:\n- Q1\n- Q2".data) 4).length ≤ 4 ∧
    parseMenu (menu_text (parseMenu ("Follow-ups:\n- Q1\n- Q2".data) 4)) 4 =
      parseMenu ("Follow-ups:\n- Q1\n- Q2".data) 4 :=
  ⟨by decide, claim_C6_parse_idempotent ("Follow-ups:\n- Q1\n- Q2".data) 4 4 (by decide)⟩

/-- C7 counterexample: on the line "- " (a bullet followed only by
whitespace), the claimed pipeline — strip the marker, trim, skip the
line if empty — would skip the line, but the code keeps the marker
itself as the item "-": the regex backtracks out of the optional
marker group rather than leaving the remainder empty. -/
theorem claim_C7_cex :
    specToken ("- ".data) = none ∧
    lineToken ("- ".data) = some ("-".data) ∧
    parseMenu ("- ".data) 4 = ["-".data] := by
  refine ⟨by decide, by decide, by decide⟩

/-- C7 (amended): the parser processes each line by stripping an
optional leading enumeration marker (digits then `.`, or a bullet
`-`/`•`, each followed by optional whitespace), trimming, skipping
lines empty after stripping, and discarding header lines — except that
a line consisting only of a marker (plus whitespace) keeps the marker
itself as its text instead of being skipped.  The concrete scenario
holds: "Follow-ups:\n- Q1\n- Q2" parses to ["Q1", "Q2"]. -/
theorem claim_C7_amended :
    (∀ raw : List Char, lineToken raw = amendedToken raw) ∧
    parseMenu ("Follow-ups:\n- Q1\n- Q2".data) 4 = ["Q1".data, "Q2".data] :=
  ⟨lineToken_eq_amended, by decide⟩

/-- C8: for every valid index into the current menu, a successful
`rotate_next_layer` resolves the follow-up at that index, sets the
conversation's base question to it, proposes the new menu from the
context built from that follow-up and its already-cached immediate
answer, and fills every entry of the new layer by a follow-up-answer
call whose base question is the selected follow-up (not the prior base
question). -/
theorem claim_C8_rotate_selected :
    ∀ (g : Gen) (s : ConvState) (idx : Int) (s' : ConvState) (m' : List (List Char)),
      1 ≤ idx → idx ≤ (s.menu.length : Int) →
      rotate_next_layer g s idx = (s', some m') →
      ∃ fu, pyGet s.menu (idx - 1) = some fu ∧
        s'.base = some fu ∧
        s'.menu = m' ∧
        (∃ raw, g.proposeFollowups (rotCtx fu ((dictGet s.answers idx).getD [])) = some raw ∧
          m' = parseMenu raw s.k) ∧
        (∀ (i : Nat) (q : List Char), m'[i]? = some q →
          ∃ a, g.followupAnswer fu q = some a ∧
            lookupNat s'.answers (1 + i) = some a) := by
  intro g s idx s' m' _ _ hrot
  obtain ⟨fu, raw, acc, hsel, hp, hparse, hfill, hs'⟩ := rotate_success hrot
  subst hs'
  refine ⟨fu, hsel, rfl, rfl, ⟨raw, hp, hparse.symm⟩, ?_⟩
  intro i q hq
  obtain ⟨a, ha, hpos⟩ := fill_entry_true g fu m' 1 (by rw [hfill]) i q hq
  refine ⟨a, ha, ?_⟩
  have hkeys : acc.map Prod.fst = List.range' 1 m'.length := by
    have hx := fill_keys_true g fu m' 1 (by rw [hfill])
    rw [hfill] at hx
    simpa using hx
  have hnd : (acc.map Prod.fst).Nodup := by
    rw [hkeys]
    exact List.nodup_range' 1 m'.length
  have hget : acc[i]? = some (1 + i, a) := by
    rw [hfill] at hpos
    simpa using hpos
  exact lookupNat_of_getElem acc hnd i (1 + i) a hget

/-- Witness for C8 at a concrete successful rotation. -/
theorem claim_C8_rotate_selected_witness :
    ∃ fu, pyGet sTwo.menu ((1 : Int) - 1) = some fu ∧
      (⟨4, some ("q1".data), ["Q1".data, "Q2".data],
        [(1, "ans:Q1".data), (2, "ans:Q2".data)]⟩ : ConvState).base = some fu ∧
      (⟨4, some ("q1".data), ["Q1".data, "Q2".data],
        [(1, "ans:Q1".data), (2, "ans:Q2".data)]⟩ : ConvState).menu = ["Q1".data, "Q2".data] ∧
      (∃ raw, genOk.proposeFollowups (rotCtx fu ((dictGet sTwo.answers 1).getD [])) = some raw ∧
        ["Q1".data, "Q2".data] = parseMenu raw sTwo.k) ∧
      (∀ (i : Nat) (q : List Char), (["Q1".data, "Q2".data] : List (List Char))[i]? = some q →
        ∃ a, genOk.followupAnswer fu q = some a ∧
          lookupNat (⟨4, some ("q1".data), ["Q1".data, "Q2".data],
            [(1, "ans:Q1".data), (2, "ans:Q2".data)]⟩ : ConvState).answers (1 + i) = some a) :=
  claim_C8_rotate_selected genOk sTwo 1
    ⟨4, some ("q1".data), ["Q1".data, "Q2".data], [(1, "ans:Q1".data), (2, "ans:Q2".data)]⟩
    ["Q1".data, "Q2".data] (by decide) (by decide) (by decide)

/-- C9: when the proposal output parses to zero questions, `ask` and
`rotate_next_layer` complete without failing, leaving Menu = [] and
AnswerCache = {}, and every subsequent `peek_immediate` (any index,
including 1) returns the out-of-range message. -/
theorem claim_C9_empty_menu :
    (∀ (g : Gen) (s : ConvState) (q a raw : List Char),
      g.mainAnswer q = some a →
      g.proposeFollowups (askCtx q a) = some raw →
      parseMenu raw s.k = [] →
      ask g s q = ({ s with base := some q, menu := [], answers := [] }, some (a, [])) ∧
      (∀ idx : Int,
        (peek_immediate { s with base := some q, menu := [], answers := [] } idx).2 = oorMsg 0)) ∧
    (∀ (g : Gen) (s : ConvState) (idx : Int) (fu raw : List Char),
      pyGet s.menu (idx - 1) = some fu →
      g.proposeFollowups (rotCtx fu ((dictGet s.answers idx).getD [])) = some raw →
      parseMenu raw s.k = [] →
      rotate_next_layer g s idx =
        ({ s with base := some fu, menu := [], answers := [] }, some []) ∧
      (∀ j : Int,
        (peek_immediate { s with base := some fu, menu := [], answers := [] } j).2 = oorMsg 0)) := by
  constructor
  · intro g s q a raw hm hp hparse
    constructor
    · simp only [ask, hm, forward, hp, hparse, fillAnswers]
      simp [menu_text]
    · intro idx
      unfold peek_immediate
      split
      · rfl
      · rename_i hcon
        exfalso
        rw [not_not] at hcon
        obtain ⟨hx, hy⟩ := hcon
        simp at hy
        omega
  · intro g s idx fu raw hsel hp hparse
    constructor
    · simp only [rotate_next_layer, hsel, forward, hp, hparse, fillAnswers]
    · intro j
      unfold peek_immediate
      split
      · rfl
      · rename_i hcon
        exfalso
        rw [not_not] at hcon
        obtain ⟨hx, hy⟩ := hcon
        simp at hy
        omega

/-- Witness for C9 with a generator returning empty proposal text. -/
theorem claim_C9_empty_menu_witness :
    (ask genEmptyMenu sTwo ("hi".data) =
      ({ sTwo with base := some ("hi".data), menu := [], answers := [] },
       some ("main answer".data, [])) ∧
     (∀ idx : Int,
       (peek_immediate { sTwo with base := some ("hi".data), menu := [], answers := [] } idx).2 =
         oorMsg 0)) ∧
    (rotate_next_layer genEmptyMenu sTwo 1 =
      ({ sTwo with base := some ("q1".data), menu := [], answers := [] }, some []) ∧
     (∀ j : Int,
       (peek_immediate { sTwo with base := some ("q1".data), menu := [], answers := [] } j).2 =
         oorMsg 0)) :=
  ⟨claim_C9_empty_menu.1 genEmptyMenu sTwo ("hi".data) ("main answer".data) []
    (by decide) (by decide) (by decide),
   claim_C9_empty_menu.2 genEmptyMenu sTwo 1 ("q1".data) []
    (by decide) (by decide) (by decide)⟩

/-- C10 counterexample: with a one-entry menu, `rotate_next_layer`
with index -1 fails at the selection lookup (`menu[-2]` is an
`IndexError`) even though -1 is not greater than the menu length,
refuting "only an index greater than the menu length makes the lookup
of the selected follow-up fail". -/
theorem claim_C10_cex :
    rotate_next_layer genOk sOne (-1) = (sOne, none) ∧
    ¬((sOne.menu.length : Int) < -1) := by
  constructor
  · decide
  · decide

/-- C10 (amended): for every non-empty menu, `rotate_next_layer` with
index 0 resolves `menu[0 - 1]` by negative indexing to the last menu
entry and rotates the conversation onto it; the lookup of the selected
follow-up fails exactly for the indices greater than the menu length
or at most minus the menu length. -/
theorem claim_C10_amended :
    (∀ (g : Gen) (s : ConvState) (h : s.menu ≠ []),
      (rotate_next_layer g s 0).1.base = some (s.menu.getLast h)) ∧
    (∀ (xs : List (List Char)) (idx : Int),
      pyGet xs (idx - 1) = none ↔
        ((xs.length : Int) < idx ∨ idx ≤ -(xs.length : Int))) := by
  constructor
  · intro g s h
    exact rotate_base (pyGet_last h)
  · exact pyGet_none_iff

/-- Witness for C10 (amended) at a concrete one-entry menu. -/
theorem claim_C10_amended_witness :
    (rotate_next_layer genOk sOne 0).1.base = some (sOne.menu.getLast (by decide)) ∧
    (pyGet sOne.menu ((2 : Int) - 1) = none ↔
      ((sOne.menu.length : Int) < 2 ∨ (2 : Int) ≤ -(sOne.menu.length : Int))) :=
  ⟨claim_C10_amended.1 genOk sOne (by decide), claim_C10_amended.2 sOne.menu 2⟩

end FastFollow
